import Mathlib

/-!
Shallow embedding of the iterative search-refine-evaluate loop of
src/langgraph_utils.py.

The program is a LangGraph pipeline: generate_query -> search_wikidata ->
agent_evaluate -> (router: refine -> generate_query | done -> agent_postprocess).
The LLM responses and the network search results are external inputs; they are
modelled as explicit arguments (oracles) to the node functions.  The Python
state dict (`PipelineState`, a TypedDict with total=False whose fields may be
absent or None) is modelled as a structure of Option fields; the Python idiom
`state.get(k) or default` is `orElseStr` / `Option.getD`.  Candidate scores
(Python floats, used only with the comparison `< 0.5`) are modelled as
rationals.  Console printing is ignored.
-/

/-- Whitespace characters recognised by Python str.split / str.strip. -/
def pyIsSpace (c : Char) : Bool :=
  (c == ' ') || (c == '\t') || (c == '\n') || (c == '\r') || (c == '\x0b') || (c == '\x0c')

/-- Python `x or default` for an optional string: None and the empty string are
falsy and give the default. -/
def orElseStr (x : Option String) (d : String) : String :=
  match x with
  | none => d
  | some s => if s = "" then d else s

/-- Core of Python str.split(): cut a character list at every whitespace
character, keeping the empty pieces (they are filtered away in `wordsOf`).
The result is always non-empty. -/
def wordsCore : List Char → List (List Char)
  | [] => [[]]
  | c :: cs =>
    match wordsCore cs with
    | [] => [[]]
    | w :: ws => if pyIsSpace c then [] :: w :: ws else (c :: w) :: ws

/-- Python str.split() with no separator: maximal non-whitespace runs. -/
def wordsOf (l : List Char) : List (List Char) :=
  (wordsCore l).filter (fun w => !w.isEmpty)

/-- Python " ".join on character lists. -/
def joinWords : List (List Char) → List Char
  | [] => []
  | [w] => w
  | w :: ws => w ++ (' ' :: joinWords ws)

/-- Python str.replace for a single-character pattern. -/
def pyReplaceChar (pat repl : Char) (s : String) : String :=
  String.mk (s.toList.map (fun d => if d = pat then repl else d))

/-- Python str.lower(), character-wise. -/
def pyLower (s : String) : String :=
  String.mk (s.toList.map Char.toLower)

/-- Python str.strip(): drop whitespace at both ends. -/
def pyStrip (s : String) : String :=
  String.mk (((s.toList.dropWhile pyIsSpace).reverse.dropWhile pyIsSpace).reverse)

/-- Does `pat` occur at the head of `hay`? (List-level startswith.) -/
def headMatch : List Char → List Char → Bool
  | [], _ => true
  | _ :: _, [] => false
  | p :: ps, h :: hs => p == h && headMatch ps hs

/-- Python `pat in hay` substring test, on character lists. -/
def containsList (pat : List Char) : List Char → Bool
  | [] => pat.isEmpty
  | h :: hs => headMatch pat (h :: hs) || containsList pat hs

/-- Python `pat in hay` substring test on strings. -/
def strContains (hay pat : String) : Bool :=
  containsList pat.toList hay.toList

/-- Embedding of `_normalize_query` (src/langgraph_utils.py lines 49-51):
replace each pipe and comma by a space, re-join the whitespace-split words
with single spaces, then keep at most `max_tokens` words. -/
def _normalize_query (q : String) (max_tokens : Nat := 4) : String :=
  let replaced := pyReplaceChar ',' ' ' (pyReplaceChar '|' ' ' q)
  let cleaned := String.mk (joinWords (wordsOf replaced.toList))
  String.mk (joinWords ((wordsOf cleaned.toList).take max_tokens))

/-- One raw Wikidata search hit, or the error record the search node stores on
failure (`[{"error": str(e)}]`). -/
inductive WikidataHit where
  | entity (id label description : String)
  | errorRecord (message : String)
deriving DecidableEq

/-- An entry of `selected_entities` as built by `node_agent_evaluate`. -/
structure SelectedEntity where
  id : String
  label : String
  description : String
  score : Rat
  rank : Int
deriving DecidableEq

/-- Embedding of the Python PipelineState TypedDict (total=False): every field
may be absent. -/
structure PipelineState where
  context : Option String := none
  query : Option String := none
  query_history : Option (List String) := none
  wikidata_hits : Option (List WikidataHit) := none
  eval_action : Option String := none
  eval_reason : Option String := none
  eval_suggested_query : Option String := none
  selected_entities : Option (List SelectedEntity) := none
  iteration : Option Nat := none
  max_iterations : Option Nat := none
  agent_notes : Option String := none
deriving DecidableEq

/-- Embedding of `node_generate_query` (lines 58-116).  `llmContent` is the
content of the LLM response (an external input, `resp.content or ""`); it is
only consulted when the evaluator left no suggested query. -/
def node_generate_query (llmContent : Option String) (state : PipelineState) : PipelineState :=
  let prior_queries := state.query_history.getD []
  let suggested := orElseStr state.eval_suggested_query ""
  if suggested = "" then
    let raw := pyStrip (orElseStr llmContent "")
    let query := _normalize_query raw 4
    { state with
      query := some query,
      query_history := some (prior_queries ++ [query]),
      eval_action := none, eval_reason := none, eval_suggested_query := none }
  else
    let query := _normalize_query suggested 4
    { state with
      query := some query,
      query_history := some (prior_queries ++ [query]),
      eval_action := none, eval_reason := none, eval_suggested_query := none }

/-- Outcome of the external wbsearchentities call: either a hit list (the
`data.get("search", [])` payload) or an exception message caught by the
`except` branch. -/
inductive SearchOutcome where
  | success (hits : List WikidataHit)
  | failure (err : String)
deriving DecidableEq

/-- Embedding of `node_search_wikidata` (lines 123-149).  With an empty
(stripped) query the node returns the state unchanged; otherwise it stores the
hits, or a one-element error-record list when the call failed. -/
def node_search_wikidata (outcome : SearchOutcome) (state : PipelineState) : PipelineState :=
  let q := pyStrip (orElseStr state.query "")
  if q = "" then state
  else
    match outcome with
    | SearchOutcome.success hits => { state with wikidata_hits := some hits }
    | SearchOutcome.failure e => { state with wikidata_hits := some [WikidataHit.errorRecord e] }

/-- One raw candidate record of the evaluator JSON (`candidates[]`): every
field may be missing. -/
structure RawCandidate where
  id : Option String := none
  label : Option String := none
  description : Option String := none
  score : Option Rat := none
  rank : Option Int := none
deriving DecidableEq

/-- Parsed evaluator decision (the dict `parsed` of lines 212-243): the
external LLM output after JSON recovery.  A parse failure is the particular
record with action "stop", an Invalid JSON reason and no candidates. -/
structure EvalRaw where
  action : Option String := none
  reason : Option String := none
  suggested_query : Option String := none
  candidates : List RawCandidate := []
deriving DecidableEq

/-- Disallowed-category lexicon of lines 272-278. -/
def disallowedTerms : List String :=
  ["scholarly article", "scientific article", "journal article", "academic paper"]

/-- Action parsing of lines 237-239: default to "stop", lowercase, and map
anything outside the three valid actions to "stop". -/
def validateAction (a : Option String) : String :=
  let action := pyLower (orElseStr a "stop")
  if action = "select" ∨ action = "refine" ∨ action = "stop" then action else "stop"

/-- Hard guard of lines 246-250: a stop decision with empty hits on the first
iteration becomes refine (the reason gets a note only when no suggested query
was given).  Returns (action, reason). -/
def hardGuardStop (action reason suggested_raw : String) (hits_empty : Bool)
    (iteration : Nat) : String × String :=
  if action = "stop" ∧ hits_empty = true ∧ iteration < 1 then
    ("refine",
      if suggested_raw = "" then
        reason ++ " | overridden to refine: empty hits on first iteration."
      else reason)
  else (action, reason)

/-- Candidate sanitation of lines 261-293: drop candidates without id, with a
disallowed-category description, or with score below 0.5. -/
def cleanCandidate (c : RawCandidate) : Option SelectedEntity :=
  let cid := orElseStr c.id ""
  if cid = "" then none
  else
    let label := orElseStr c.label ""
    let desc := orElseStr c.description ""
    let score_val := c.score.getD 0
    if disallowedTerms.any (fun term => strContains (pyLower desc) term) then none
    else if score_val < (1 : Rat) / 2 then none
    else some { id := cid, label := label, description := desc,
                score := score_val, rank := c.rank.getD 0 }

/-- The whole candidate loop of lines 261-293. -/
def filterCandidates (cs : List RawCandidate) : List SelectedEntity :=
  cs.filterMap cleanCandidate

/-- Select handling of lines 259-298: filter the candidates and, when nothing
survives, downgrade select to refine with a diagnostic note.  Returns
(action, reason, selected_entities). -/
def selectStage (action reason : String) (cands : List RawCandidate) :
    String × String × List SelectedEntity :=
  if action = "select" then
    let selected := filterCandidates cands
    if selected.isEmpty then
      ("refine", reason ++ " | no non-article candidates above score threshold; refine query.",
        selected)
    else (action, reason, selected)
  else (action, reason, [])

/-- Refine handling of lines 300-312 (cycle prevention): a refine whose
cleaned suggested query is empty, equal to the current query, or already in
the history becomes stop with an empty suggestion; otherwise the iteration
counter will be incremented.  Returns (action, reason, suggested, increment). -/
def refineStage (action reason cleaned_suggested current_q : String)
    (history : List String) : String × String × String × Bool :=
  if action = "refine" then
    if cleaned_suggested = "" ∨ cleaned_suggested = current_q ∨ cleaned_suggested ∈ history then
      ("stop", reason ++ " | stopping: no new query to try.", "", false)
    else (action, reason, cleaned_suggested, true)
  else (action, reason, cleaned_suggested, false)

/-- Embedding of `node_agent_evaluate` (lines 156-323).  `r` is the parsed
evaluator output (external input); the stages mirror the linear structure of
the function body. -/
def node_agent_evaluate (r : EvalRaw) (state : PipelineState) : PipelineState :=
  let iteration := state.iteration.getD 0
  let history := state.query_history.getD []
  let hits_empty := (state.wikidata_hits.getD []).isEmpty
  let reason0 := orElseStr r.reason ""
  let suggested_raw := orElseStr r.suggested_query ""
  let ar := hardGuardStop (validateAction r.action) reason0 suggested_raw hits_empty iteration
  let cleaned_suggested := if suggested_raw = "" then "" else _normalize_query suggested_raw 4
  let ars := selectStage ar.1 ar.2 r.candidates
  let out := refineStage ars.1 ars.2.1 cleaned_suggested (orElseStr state.query "") history
  { state with
    eval_action := some out.1,
    eval_reason := some out.2.1,
    eval_suggested_query := some out.2.2.1,
    selected_entities := some ars.2.2,
    iteration := if out.2.2.2 then some (iteration + 1) else state.iteration }

/-- Embedding of `router_after_eval` (lines 330-339). -/
def router_after_eval (state : PipelineState) : String :=
  let action := pyLower (orElseStr state.eval_action "stop")
  if action = "refine" ∧ state.iteration.getD 0 < state.max_iterations.getD 3 then "refine"
  else "done"

/-- Python f-string rendering of a possibly-absent string value. -/
def pyShowOpt : Option String → String
  | none => "None"
  | some s => s

/-- Embedding of `node_agent_postprocess` (lines 346-357). -/
def node_agent_postprocess (state : PipelineState) : PipelineState :=
  let q := orElseStr state.query ""
  let hits := state.wikidata_hits.getD []
  let selected := state.selected_entities.getD []
  { state with
    agent_notes := some
      ("Final action=" ++ pyShowOpt state.eval_action ++ ", query=\x27" ++ q ++
        "\x27, hits=" ++ toString hits.length ++ ", selected=" ++ toString selected.length ++
        ", reason=\x27" ++ pyShowOpt state.eval_reason ++ "\x27") }

/-- Initial state built in `__main__` (lines 415-420), with the iteration
bound kept as a parameter. -/
def initial_state (ctx : Option String) (maxIter : Nat) : PipelineState :=
  { context := ctx, iteration := some 0, max_iterations := some maxIter,
    query_history := some [] }

/-- External inputs consumed by one generate-search-evaluate pass. -/
structure StepInputs where
  llmContent : Option String
  searchOutcome : SearchOutcome
  evalRaw : EvalRaw

/-- One generate -> search -> evaluate pass of the compiled graph. -/
def loopBody (inp : StepInputs) (s : PipelineState) : PipelineState :=
  node_agent_evaluate inp.evalRaw
    (node_search_wikidata inp.searchOutcome (node_generate_query inp.llmContent s))

/-- Result of driving the graph with bounded fuel: either the post-processed
terminal state together with the number of refine loop-backs taken, or the
state at fuel exhaustion. -/
inductive RunResult where
  | finished (final : PipelineState) (loopbacks : Nat)
  | outOfFuel (s : PipelineState)
deriving DecidableEq

/-- Drive the compiled graph (lines 364-383): run a pass, loop back to
generate_query while the router says refine, otherwise post-process.  `oracle`
supplies the external inputs of each pass. -/
def runLoop (oracle : Nat → StepInputs) : Nat → Nat → PipelineState → RunResult
  | _, 0, s => RunResult.outOfFuel s
  | k, fuel + 1, s =>
    let s2 := loopBody (oracle k) s
    if router_after_eval s2 = "refine" then
      match runLoop oracle (k + 1) fuel s2 with
      | RunResult.finished t n => RunResult.finished t (n + 1)
      | RunResult.outOfFuel t => RunResult.outOfFuel t
    else RunResult.finished (node_agent_postprocess s2) 0

/-- Did the bounded run reach the terminal state? -/
def runFinished : RunResult → Bool
  | RunResult.finished _ _ => true
  | RunResult.outOfFuel _ => false

/-- Number of refine loop-backs of a finished run. -/
def runLoopbacks : RunResult → Nat
  | RunResult.finished _ n => n
  | RunResult.outOfFuel _ => 0

/-- Final state of a run. -/
def runFinal : RunResult → PipelineState
  | RunResult.finished t _ => t
  | RunResult.outOfFuel t => t

/-- Control locations of the graph, placed before the node about to execute
(`terminated` is the END node). -/
inductive Phase where
  | atGenerate
  | atSearch
  | atEvaluate
  | atPost
  | terminated
deriving DecidableEq

/-- Small-step relation of the compiled graph: node executions plus the
conditional routing after evaluation. -/
inductive GraphStep : Phase × PipelineState → Phase × PipelineState → Prop where
  | generate (raw : Option String) (s : PipelineState) :
      GraphStep (Phase.atGenerate, s) (Phase.atSearch, node_generate_query raw s)
  | search (o : SearchOutcome) (s : PipelineState) :
      GraphStep (Phase.atSearch, s) (Phase.atEvaluate, node_search_wikidata o s)
  | evalRefine (r : EvalRaw) (s : PipelineState)
      (h : router_after_eval (node_agent_evaluate r s) = "refine") :
      GraphStep (Phase.atEvaluate, s) (Phase.atGenerate, node_agent_evaluate r s)
  | evalDone (r : EvalRaw) (s : PipelineState)
      (h : router_after_eval (node_agent_evaluate r s) ≠ "refine") :
      GraphStep (Phase.atEvaluate, s) (Phase.atPost, node_agent_evaluate r s)
  | post (s : PipelineState) :
      GraphStep (Phase.atPost, s) (Phase.terminated, node_agent_postprocess s)

/-- Reachability along the graph. -/
def Reach : Phase × PipelineState → Phase × PipelineState → Prop :=
  Relation.ReflTransGen GraphStep

/-- Normalized suggested query of a raw decision (lines 253-255). -/
def cleanedOf (r : EvalRaw) : String :=
  if orElseStr r.suggested_query "" = "" then ""
  else _normalize_query (orElseStr r.suggested_query "") 4

/-- Cycle-prevention test of lines 303-307: the suggestion is unusable. -/
def staleSuggestion (r : EvalRaw) (s : PipelineState) : Prop :=
  cleanedOf r = "" ∨ cleanedOf r = orElseStr s.query "" ∨
    cleanedOf r ∈ s.query_history.getD []

/-- Scenario oracle: the evaluator always answers refine with a fresh unseen
suggested query, the search always succeeds with zero hits. -/
def oracleB : Nat → StepInputs := fun k =>
  { llmContent := some "alpha",
    searchOutcome := SearchOutcome.success [],
    evalRaw := { action := some "refine", reason := some "keep searching",
                 suggested_query := some ("term " ++ toString k), candidates := [] } }

/-- Raw stop decision carrying no suggested query. -/
def cexC5_r : EvalRaw := { action := some "stop", reason := some "done" }

/-- State with empty hits at iteration 0. -/
def cexC5_s : PipelineState :=
  { query := some "alpha", query_history := some ["alpha"], wikidata_hits := some [],
    iteration := some 0, max_iterations := some 3 }

/-- State holding a non-empty query, about to run the search node. -/
def cexC6_s : PipelineState := { query := some "motor" }

/-- Raw refine decision with a fresh suggested query. -/
def cexC3_r : EvalRaw :=
  { action := some "refine", reason := some "", suggested_query := some "beta" }

/-- State after one generate-search-evaluate pass of a run whose iteration
bound is zero. -/
def cexC3_state : PipelineState :=
  node_agent_evaluate cexC3_r
    (node_search_wikidata (SearchOutcome.success [])
      (node_generate_query (some "alpha") (initial_state none 0)))

/-- Raw refine decision with a fresh suggested query, witness input. -/
def wC1_r : EvalRaw := { action := some "refine", suggested_query := some "fresh idea" }

/-- Raw stop decision with a fresh suggested query, witness input. -/
def wC5_r : EvalRaw := { action := some "stop", suggested_query := some "fresh idea" }

/-- State whose query is whitespace only, witness input. -/
def wC7_s : PipelineState := { query := some "   ", wikidata_hits := some [WikidataHit.entity "Q1" "old" "kept"] }

/-- Effect of the cycle-prevention override on the stored decision (claim C1):
a stale suggestion downgrades refine to stop with the explanatory note and an
empty suggestion; a fresh one keeps the refine decision unchanged. -/
def C1Prop (r : EvalRaw) (s : PipelineState) : Prop :=
  (staleSuggestion r s →
    (node_agent_evaluate r s).eval_action = some "stop" ∧
    (node_agent_evaluate r s).eval_reason =
      some (orElseStr r.reason "" ++ " | stopping: no new query to try.") ∧
    (node_agent_evaluate r s).eval_suggested_query = some "") ∧
  (¬ staleSuggestion r s →
    (node_agent_evaluate r s).eval_action = some "refine" ∧
    (node_agent_evaluate r s).eval_reason = some (orElseStr r.reason "") ∧
    (node_agent_evaluate r s).eval_suggested_query = some (cleanedOf r))

/-- Termination of the loop (claim C2): with fuel max_iterations + 1 the run
finishes with at most max_iterations loop-backs, and the always-refine,
fresh-query scenario with bound 3 ends at iteration 3 with a history of
length 3. -/
def C2Prop (oracle : Nat → StepInputs) (s : PipelineState) : Prop :=
  (∃ t n, runLoop oracle 0 (s.max_iterations.getD 3 + 1) s = RunResult.finished t n ∧
    n ≤ s.max_iterations.getD 3) ∧
  runFinished (runLoop oracleB 0 4 (initial_state none 3)) = true ∧
  runLoopbacks (runLoop oracleB 0 4 (initial_state none 3)) = 2 ∧
  (runFinal (runLoop oracleB 0 4 (initial_state none 3))).iteration = some 3 ∧
  ((runFinal (runLoop oracleB 0 4 (initial_state none 3))).query_history.getD []).length = 3

/-- Iteration-counter discipline (claim C3, amended with a positive bound):
every reachable state satisfies iteration at most max_iterations, and only an
evaluation whose effective action is refine changes the counter, by exactly
one. -/
def C3InvProp (ctx : Option String) (maxIter : Nat) : Prop :=
  (∀ p s, Reach (Phase.atGenerate, initial_state ctx maxIter) (p, s) →
    s.iteration.getD 0 ≤ maxIter) ∧
  (∀ raw t, (node_generate_query raw t).iteration = t.iteration) ∧
  (∀ o t, (node_search_wikidata o t).iteration = t.iteration) ∧
  (∀ t, (node_agent_postprocess t).iteration = t.iteration) ∧
  (∀ r t,
    ((node_agent_evaluate r t).eval_action = some "refine" →
      (node_agent_evaluate r t).iteration = some (t.iteration.getD 0 + 1)) ∧
    ((node_agent_evaluate r t).eval_action ≠ some "refine" →
      (node_agent_evaluate r t).iteration = t.iteration))

/-- Behaviour of the evaluation step on empty hits at iteration 0 (claim C5,
amended): the effective decision is not stop provided the suggestion is fresh,
and the hard guard itself always converts such a stop to refine. -/
def C5AmendedProp (r : EvalRaw) (s : PipelineState) : Prop :=
  (node_agent_evaluate r s).eval_action ≠ some "stop" ∧
  (∀ re sug, hardGuardStop "stop" re sug true 0 =
    ("refine",
      if sug = "" then re ++ " | overridden to refine: empty hits on first iteration."
      else re))

/-- Shape guarantees of the query normalization and its use by the proposer
(claim C8, amended): at most 4 tokens, idempotent, free of pipe and comma;
every stored query is a normalization image. -/
def C8AmendedProp : Prop :=
  (∀ q, (wordsOf (_normalize_query q 4).toList).length ≤ 4) ∧
  (∀ q, _normalize_query (_normalize_query q 4) 4 = _normalize_query q 4) ∧
  (∀ q c, c ∈ (_normalize_query q 4).toList → c ≠ '|' ∧ c ≠ ',') ∧
  (∀ raw s, ∃ src, (node_generate_query raw s).query = some (_normalize_query src 4))

/-- The three legal actions of an evaluation decision. -/
def ValidAction (a : String) : Prop :=
  a = "select" ∨ a = "refine" ∨ a = "stop"

/-- Action and reason after the hard guard, as computed inside
`node_agent_evaluate`. -/
def evalStageAR (r : EvalRaw) (s : PipelineState) : String × String :=
  hardGuardStop (validateAction r.action) (orElseStr r.reason "")
    (orElseStr r.suggested_query "") ((s.wikidata_hits.getD []).isEmpty)
    (s.iteration.getD 0)

/-- Action, reason and selected entities after the select stage, as computed
inside `node_agent_evaluate`. -/
def evalStageARS (r : EvalRaw) (s : PipelineState) : String × String × List SelectedEntity :=
  selectStage (evalStageAR r s).1 (evalStageAR r s).2 r.candidates

/-- Final action, reason, suggestion and increment flag computed inside
`node_agent_evaluate`. -/
def evalStageOut (r : EvalRaw) (s : PipelineState) : String × String × String × Bool :=
  refineStage (evalStageARS r s).1 (evalStageARS r s).2.1 (cleanedOf r)
    (orElseStr s.query "") (s.query_history.getD [])

/-- Inductive invariant for the iteration bound: before the post-processing
phases the counter still has room for one increment. -/
def iterInv (maxIter : Nat) : Phase × PipelineState → Prop := fun ps =>
  ps.2.max_iterations = some maxIter ∧
  (match ps.1 with
   | Phase.atPost => ps.2.iteration.getD 0 ≤ maxIter
   | Phase.terminated => ps.2.iteration.getD 0 ≤ maxIter
   | _ => ps.2.iteration.getD 0 + 1 ≤ maxIter)

/-- Inductive invariant for the query history: it has no duplicates, and on
re-entry of the proposer the pending suggestion is a fresh normalized
non-empty query (at the very first entry there is no suggestion and the
history is empty). -/
def histInv : Phase × PipelineState → Prop := fun ps =>
  (ps.2.query_history.getD []).Nodup ∧
  (ps.1 = Phase.atGenerate →
    (ps.2.eval_suggested_query = none ∧ ps.2.query_history.getD [] = []) ∨
    (∃ c, ps.2.eval_suggested_query = some c ∧ c ≠ "" ∧ _normalize_query c 4 = c ∧
      c ∉ ps.2.query_history.getD []))

/-! Lemmas about the Python-style word splitting used by the normalizer. -/

theorem wordsCore_eq_cons (l : List Char) : ∃ w ws, wordsCore l = w :: ws := by
  induction l with
  | nil => exact ⟨[], [], rfl⟩
  | cons c cs ih =>
    obtain ⟨w, ws, hw⟩ := ih
    by_cases h : pyIsSpace c
    · exact ⟨[], w :: ws, by simp [wordsCore, hw, h]⟩
    · exact ⟨c :: w, ws, by simp [wordsCore, hw, h]⟩

theorem mem_wordsCore_chars {l : List Char} {w : List Char} (hw : w ∈ wordsCore l) :
    ∀ c ∈ w, pyIsSpace c = false ∧ c ∈ l := by
  induction l generalizing w with
  | nil =>
    simp only [wordsCore, List.mem_singleton] at hw
    subst hw
    intro c hc
    cases hc
  | cons a as ih =>
    obtain ⟨u, us, hu⟩ := wordsCore_eq_cons as
    by_cases h : pyIsSpace a
    · rw [show wordsCore (a :: as) = [] :: u :: us by simp [wordsCore, hu, h]] at hw
      rcases List.mem_cons.mp hw with hw1 | hw2
      · intro c hc
        rw [hw1] at hc
        cases hc
      · intro c hc
        have := ih (hu ▸ hw2) c hc
        exact ⟨this.1, List.mem_cons_of_mem a this.2⟩
    · rw [show wordsCore (a :: as) = (a :: u) :: us by simp [wordsCore, hu, h]] at hw
      rcases List.mem_cons.mp hw with hw1 | hw2
      · intro c hc
        rw [hw1] at hc
        rcases List.mem_cons.mp hc with hca | hcu
        · rw [hca]
          exact ⟨by simpa using h, List.mem_cons_self a as⟩
        · have := ih (by rw [hu]; exact List.mem_cons_self u us) c hcu
          exact ⟨this.1, List.mem_cons_of_mem a this.2⟩
      · intro c hc
        have := ih (by rw [hu]; exact List.mem_cons_of_mem u hw2) c hc
        exact ⟨this.1, List.mem_cons_of_mem a this.2⟩

theorem mem_wordsOf {l w : List Char} (hw : w ∈ wordsOf l) :
    w ≠ [] ∧ ∀ c ∈ w, pyIsSpace c = false ∧ c ∈ l := by
  unfold wordsOf at hw
  rw [List.mem_filter] at hw
  refine ⟨by simpa using hw.2, mem_wordsCore_chars hw.1⟩

theorem wordsCore_nospace {l : List Char} (h : ∀ c ∈ l, pyIsSpace c = false) :
    wordsCore l = [l] := by
  induction l with
  | nil => rfl
  | cons a as ih =>
    have has : wordsCore as = [as] := ih (fun c hc => h c (List.mem_cons_of_mem a hc))
    have ha : pyIsSpace a = false := h a (List.mem_cons_self a as)
    simp [wordsCore, has, ha]

theorem wordsCore_append {w : List Char} (hw : ∀ c ∈ w, pyIsSpace c = false)
    {l u : List Char} {us : List (List Char)} (hl : wordsCore l = u :: us) :
    wordsCore (w ++ l) = (w ++ u) :: us := by
  induction w with
  | nil => simpa using hl
  | cons a as ih =>
    have has : wordsCore (as ++ l) = (as ++ u) :: us :=
      ih (fun c hc => hw c (List.mem_cons_of_mem a hc))
    have ha : pyIsSpace a = false := hw a (List.mem_cons_self a as)
    simp [wordsCore, has, ha]

theorem wordsOf_join {ws : List (List Char)}
    (h : ∀ w ∈ ws, w ≠ [] ∧ ∀ c ∈ w, pyIsSpace c = false) :
    wordsOf (joinWords ws) = ws := by
  induction ws with
  | nil => rfl
  | cons w ws ih =>
    obtain ⟨hwne, hwsp⟩ := h w (List.mem_cons_self w ws)
    cases ws with
    | nil =>
      show wordsOf w = [w]
      unfold wordsOf
      rw [wordsCore_nospace hwsp]
      simp [hwne]
    | cons w2 ws2 =>
      have hrest : wordsOf (joinWords (w2 :: ws2)) = w2 :: ws2 :=
        ih (fun v hv => h v (List.mem_cons_of_mem w hv))
      obtain ⟨u, us, hu⟩ := wordsCore_eq_cons (joinWords (w2 :: ws2))
      have hsp : wordsCore (' ' :: joinWords (w2 :: ws2)) = [] :: u :: us := by
        simp [wordsCore, hu, pyIsSpace]
      have hjoin : joinWords (w :: w2 :: ws2) = w ++ (' ' :: joinWords (w2 :: ws2)) := rfl
      rw [hjoin]
      unfold wordsOf
      rw [wordsCore_append hwsp hsp]
      have hkeep : (!w.isEmpty) = true := by simpa using hwne
      have htail : List.filter (fun v => !v.isEmpty) (u :: us) = w2 :: ws2 := by
        unfold wordsOf at hrest
        rw [hu] at hrest
        exact hrest
      rw [List.append_nil]
      simp only [List.filter_cons, hkeep, if_true] at htail ⊢
      rw [htail]

theorem mem_joinWords {c : Char} {ws : List (List Char)} (hc : c ∈ joinWords ws) :
    c = ' ' ∨ ∃ w ∈ ws, c ∈ w := by
  induction ws with
  | nil => cases hc
  | cons w ws ih =>
    cases ws with
    | nil => exact Or.inr ⟨w, List.mem_singleton_self w, hc⟩
    | cons w2 ws2 =>
      have hjoin : joinWords (w :: w2 :: ws2) = w ++ (' ' :: joinWords (w2 :: ws2)) := rfl
      rw [hjoin] at hc
      rcases List.mem_append.mp hc with hcw | hctail
      · exact Or.inr ⟨w, List.mem_cons_self w (w2 :: ws2), hcw⟩
      · rcases List.mem_cons.mp hctail with hsp | hcj
        · exact Or.inl hsp
        · rcases ih hcj with hsp | ⟨v, hv, hcv⟩
          · exact Or.inl hsp
          · exact Or.inr ⟨v, List.mem_cons_of_mem w hv, hcv⟩

theorem toList_mk (l : List Char) : (String.mk l).toList = l := rfl

theorem mk_toList (s : String) : String.mk s.toList = s := rfl

theorem map_id_of_mem {α : Type} {l : List α} {f : α → α} (h : ∀ c ∈ l, f c = c) :
    l.map f = l := by
  induction l with
  | nil => rfl
  | cons a as ih =>
    simp only [List.map_cons, h a (List.mem_cons_self a as)]
    rw [ih (fun c hc => h c (List.mem_cons_of_mem a hc))]

/-! Lemmas about the query normalizer. -/

theorem pyReplaceChar_no_pat (pat repl : Char) (hne : repl ≠ pat) (s : String) :
    ∀ c ∈ (pyReplaceChar pat repl s).toList, c ≠ pat := by
  intro c hc
  simp only [pyReplaceChar, toList_mk, List.mem_map] at hc
  obtain ⟨d, _, rfl⟩ := hc
  by_cases h : d = pat
  · simp [h]
    exact hne
  · simp [h]

theorem pyReplaceChar_id (pat repl : Char) (s : String) (h : ∀ c ∈ s.toList, c ≠ pat) :
    pyReplaceChar pat repl s = s := by
  unfold pyReplaceChar
  rw [map_id_of_mem (fun c hc => by simp [h c hc]), mk_toList]

theorem replaced_no_pipe_comma (q : String) :
    ∀ c ∈ (pyReplaceChar ',' ' ' (pyReplaceChar '|' ' ' q)).toList, c ≠ '|' ∧ c ≠ ',' := by
  intro c hc
  refine ⟨?_, pyReplaceChar_no_pat ',' ' ' (by decide) _ c hc⟩
  simp only [pyReplaceChar, toList_mk, List.mem_map] at hc
  obtain ⟨d, hd, rfl⟩ := hc
  have hd2 : d ≠ '|' := pyReplaceChar_no_pat '|' ' ' (by decide) q d (by simpa [pyReplaceChar, toList_mk] using hd)
  by_cases h : d = ','
  · simp [h]
  · simpa [h] using hd2

theorem normalize_closed_form (q : String) (n : Nat) :
    _normalize_query q n =
      String.mk (joinWords
        ((wordsOf (pyReplaceChar ',' ' ' (pyReplaceChar '|' ' ' q)).toList).take n)) := by
  simp only [_normalize_query, toList_mk]
  rw [wordsOf_join (fun w hw => ⟨(mem_wordsOf hw).1, fun c hc => ((mem_wordsOf hw).2 c hc).1⟩)]

theorem normalize_words (q : String) (n : Nat) :
    wordsOf (_normalize_query q n).toList =
      (wordsOf (pyReplaceChar ',' ' ' (pyReplaceChar '|' ' ' q)).toList).take n := by
  rw [normalize_closed_form, toList_mk]
  apply wordsOf_join
  intro w hw
  have hw2 := List.take_subset _ _ hw
  exact ⟨(mem_wordsOf hw2).1, fun c hc => ((mem_wordsOf hw2).2 c hc).1⟩

theorem normalize_no_pipe_comma (q : String) (n : Nat) :
    ∀ c ∈ (_normalize_query q n).toList, c ≠ '|' ∧ c ≠ ',' := by
  intro c hc
  rw [normalize_closed_form, toList_mk] at hc
  rcases mem_joinWords hc with hsp | ⟨w, hw, hcw⟩
  · rw [hsp]
    exact ⟨by decide, by decide⟩
  · have hw2 := List.take_subset _ _ hw
    exact replaced_no_pipe_comma q c ((mem_wordsOf hw2).2 c hcw).2

theorem normalize_token_bound (q : String) (n : Nat) :
    (wordsOf (_normalize_query q n).toList).length ≤ n := by
  rw [normalize_words, List.length_take]
  exact min_le_left n _

theorem normalizeQuery_idem (q : String) (n : Nat) :
    _normalize_query (_normalize_query q n) n = _normalize_query q n := by
  have hx1 : pyReplaceChar '|' ' ' (_normalize_query q n) = _normalize_query q n :=
    pyReplaceChar_id _ _ _ (fun c hc => (normalize_no_pipe_comma q n c hc).1)
  have hx2 : pyReplaceChar ',' ' ' (_normalize_query q n) = _normalize_query q n :=
    pyReplaceChar_id _ _ _ (fun c hc => (normalize_no_pipe_comma q n c hc).2)
  rw [normalize_closed_form (_normalize_query q n) n, hx1, hx2, normalize_words q n,
    List.take_take, min_self, ← normalize_closed_form]

/-! Frame lemmas for the graph nodes. -/

theorem generate_iteration (raw : Option String) (s : PipelineState) :
    (node_generate_query raw s).iteration = s.iteration := by
  by_cases h : orElseStr s.eval_suggested_query "" = "" <;> simp [node_generate_query, h]

theorem generate_max (raw : Option String) (s : PipelineState) :
    (node_generate_query raw s).max_iterations = s.max_iterations := by
  by_cases h : orElseStr s.eval_suggested_query "" = "" <;> simp [node_generate_query, h]

theorem generate_hits (raw : Option String) (s : PipelineState) :
    (node_generate_query raw s).wikidata_hits = s.wikidata_hits := by
  by_cases h : orElseStr s.eval_suggested_query "" = "" <;> simp [node_generate_query, h]

theorem generate_appends (raw : Option String) (s : PipelineState) :
    ∃ q, (node_generate_query raw s).query = some q ∧
      (node_generate_query raw s).query_history = some (s.query_history.getD [] ++ [q]) ∧
      (∃ src, q = _normalize_query src 4) := by
  by_cases h : orElseStr s.eval_suggested_query "" = ""
  · exact ⟨_normalize_query (pyStrip (orElseStr raw "")) 4,
      by simp [node_generate_query, h], by simp [node_generate_query, h], ⟨_, rfl⟩⟩
  · exact ⟨_normalize_query (orElseStr s.eval_suggested_query "") 4,
      by simp [node_generate_query, h], by simp [node_generate_query, h], ⟨_, rfl⟩⟩

theorem generate_adopts (raw : Option String) (s : PipelineState) (c : String)
    (hs : s.eval_suggested_query = some c) (hc : c ≠ "") :
    node_generate_query raw s =
      { s with query := some (_normalize_query c 4),
               query_history := some (s.query_history.getD [] ++ [_normalize_query c 4]),
               eval_action := none, eval_reason := none, eval_suggested_query := none } := by
  simp [node_generate_query, orElseStr, hs, hc]

theorem search_skip (o : SearchOutcome) (s : PipelineState)
    (h : pyStrip (orElseStr s.query "") = "") : node_search_wikidata o s = s := by
  simp [node_search_wikidata, h]

theorem search_iteration (o : SearchOutcome) (s : PipelineState) :
    (node_search_wikidata o s).iteration = s.iteration := by
  by_cases h : pyStrip (orElseStr s.query "") = "" <;> cases o <;>
    simp [node_search_wikidata, h]

theorem search_max (o : SearchOutcome) (s : PipelineState) :
    (node_search_wikidata o s).max_iterations = s.max_iterations := by
  by_cases h : pyStrip (orElseStr s.query "") = "" <;> cases o <;>
    simp [node_search_wikidata, h]

theorem search_history (o : SearchOutcome) (s : PipelineState) :
    (node_search_wikidata o s).query_history = s.query_history := by
  by_cases h : pyStrip (orElseStr s.query "") = "" <;> cases o <;>
    simp [node_search_wikidata, h]

theorem search_query (o : SearchOutcome) (s : PipelineState) :
    (node_search_wikidata o s).query = s.query := by
  by_cases h : pyStrip (orElseStr s.query "") = "" <;> cases o <;>
    simp [node_search_wikidata, h]

theorem search_suggested (o : SearchOutcome) (s : PipelineState) :
    (node_search_wikidata o s).eval_suggested_query = s.eval_suggested_query := by
  by_cases h : pyStrip (orElseStr s.query "") = "" <;> cases o <;>
    simp [node_search_wikidata, h]

theorem search_failure_stores_error (e : String) (s : PipelineState)
    (h : pyStrip (orElseStr s.query "") ≠ "") :
    node_search_wikidata (SearchOutcome.failure e) s =
      { s with wikidata_hits := some [WikidataHit.errorRecord e] } := by
  simp [node_search_wikidata, h]

theorem postprocess_iteration (s : PipelineState) :
    (node_agent_postprocess s).iteration = s.iteration := rfl

theorem postprocess_max (s : PipelineState) :
    (node_agent_postprocess s).max_iterations = s.max_iterations := rfl

theorem postprocess_history (s : PipelineState) :
    (node_agent_postprocess s).query_history = s.query_history := rfl

theorem evaluate_query (r : EvalRaw) (s : PipelineState) :
    (node_agent_evaluate r s).query = s.query := rfl

theorem evaluate_history (r : EvalRaw) (s : PipelineState) :
    (node_agent_evaluate r s).query_history = s.query_history := rfl

theorem evaluate_max (r : EvalRaw) (s : PipelineState) :
    (node_agent_evaluate r s).max_iterations = s.max_iterations := rfl

theorem evaluate_action_eq (r : EvalRaw) (s : PipelineState) :
    (node_agent_evaluate r s).eval_action = some (evalStageOut r s).1 := rfl

theorem evaluate_reason_eq (r : EvalRaw) (s : PipelineState) :
    (node_agent_evaluate r s).eval_reason = some (evalStageOut r s).2.1 := rfl

theorem evaluate_suggested_eq (r : EvalRaw) (s : PipelineState) :
    (node_agent_evaluate r s).eval_suggested_query = some (evalStageOut r s).2.2.1 := rfl

theorem evaluate_selected_eq (r : EvalRaw) (s : PipelineState) :
    (node_agent_evaluate r s).selected_entities = some (evalStageARS r s).2.2 := rfl

theorem evaluate_iteration_eq (r : EvalRaw) (s : PipelineState) :
    (node_agent_evaluate r s).iteration =
      if (evalStageOut r s).2.2.2 then some (s.iteration.getD 0 + 1) else s.iteration := rfl

/-! Lemmas about the evaluation stages. -/

theorem validAction_validate (a : Option String) : ValidAction (validateAction a) := by
  unfold validateAction ValidAction
  by_cases h : pyLower (orElseStr a "stop") = "select" ∨ pyLower (orElseStr a "stop") = "refine" ∨
      pyLower (orElseStr a "stop") = "stop"
  · rw [if_pos h]
    exact h
  · simp [h]

theorem hardGuardStop_action (action reason sug : String) (he : Bool) (it : Nat) :
    (hardGuardStop action reason sug he it).1 = "refine" ∨
    (hardGuardStop action reason sug he it).1 = action := by
  unfold hardGuardStop
  by_cases h : action = "stop" ∧ he = true ∧ it = 0 <;> simp [Nat.lt_one_iff, h]

theorem hardGuardStop_not_stop (action reason sug : String) (he : Bool) (it : Nat)
    (ha : action ≠ "stop") : hardGuardStop action reason sug he it = (action, reason) := by
  simp [hardGuardStop, ha]

theorem hardGuardStop_fires (reason sug : String) :
    hardGuardStop "stop" reason sug true 0 =
      ("refine",
        if sug = "" then reason ++ " | overridden to refine: empty hits on first iteration."
        else reason) := by
  simp [hardGuardStop]

theorem selectStage_action (action reason : String) (cands : List RawCandidate) :
    (selectStage action reason cands).1 = "refine" ∨
    (selectStage action reason cands).1 = action := by
  unfold selectStage
  by_cases h : action = "select"
  · by_cases he : (filterCandidates cands).isEmpty <;> simp [h, he]
  · simp [h]

theorem selectStage_not_select (action reason : String) (cands : List RawCandidate)
    (ha : action ≠ "select") : selectStage action reason cands = (action, reason, []) := by
  simp [selectStage, ha]

theorem selectStage_downgrade (reason : String) (cands : List RawCandidate)
    (h : filterCandidates cands = []) :
    selectStage "select" reason cands =
      ("refine", reason ++ " | no non-article candidates above score threshold; refine query.",
        []) := by
  simp [selectStage, h]

theorem selectStage_select (action reason : String) (cands : List RawCandidate)
    (h : (selectStage action reason cands).1 = "select") :
    action = "select" ∧ filterCandidates cands ≠ [] ∧
      selectStage action reason cands = ("select", reason, filterCandidates cands) := by
  by_cases ha : action = "select"
  · by_cases he : (filterCandidates cands).isEmpty
    · have hx : (selectStage action reason cands).1 = "refine" := by simp [selectStage, ha, he]
      rw [hx] at h
      exact absurd h (by decide)
    · exact ⟨ha, by simpa using he, by simp [selectStage, ha, he]⟩
  · have hx : (selectStage action reason cands).1 = action := by simp [selectStage, ha]
    rw [hx] at h
    exact absurd h ha

theorem refineStage_action (action reason cl cq : String) (hist : List String) :
    (refineStage action reason cl cq hist).1 = "stop" ∨
    (refineStage action reason cl cq hist).1 = action := by
  unfold refineStage
  by_cases ha : action = "refine"
  · by_cases hbad : cl = "" ∨ cl = cq ∨ cl ∈ hist <;> simp [ha, hbad]
  · simp [ha]

theorem refineStage_stale (reason cl cq : String) (hist : List String)
    (h : cl = "" ∨ cl = cq ∨ cl ∈ hist) :
    refineStage "refine" reason cl cq hist =
      ("stop", reason ++ " | stopping: no new query to try.", "", false) := by
  simp [refineStage, h]

theorem refineStage_fresh (reason cl cq : String) (hist : List String)
    (h : ¬(cl = "" ∨ cl = cq ∨ cl ∈ hist)) :
    refineStage "refine" reason cl cq hist = ("refine", reason, cl, true) := by
  simp [refineStage, h]

theorem refineStage_not_refine (action reason cl cq : String) (hist : List String)
    (ha : action ≠ "refine") :
    refineStage action reason cl cq hist = (action, reason, cl, false) := by
  simp [refineStage, ha]

theorem refineStage_refine (action reason cl cq : String) (hist : List String)
    (h : (refineStage action reason cl cq hist).1 = "refine") :
    refineStage action reason cl cq hist = ("refine", reason, cl, true) ∧
      cl ≠ "" ∧ cl ≠ cq ∧ cl ∉ hist := by
  by_cases ha : action = "refine"
  · by_cases hbad : cl = "" ∨ cl = cq ∨ cl ∈ hist
    · have hx : (refineStage action reason cl cq hist).1 = "stop" := by
        rw [ha, refineStage_stale reason cl cq hist hbad]
      rw [hx] at h
      exact absurd h (by decide)
    · push_neg at hbad
      refine ⟨?_, hbad.1, hbad.2.1, hbad.2.2⟩
      rw [ha, refineStage_fresh reason cl cq hist]
      intro hcon
      rcases hcon with hc | hc | hc
      · exact hbad.1 hc
      · exact hbad.2.1 hc
      · exact hbad.2.2 hc
  · have hx : (refineStage action reason cl cq hist).1 = action := by
      rw [refineStage_not_refine action reason cl cq hist ha]
    rw [hx] at h
    exact absurd h ha

theorem refineStage_no_increment (action reason cl cq : String) (hist : List String)
    (h : (refineStage action reason cl cq hist).1 ≠ "refine") :
    (refineStage action reason cl cq hist).2.2.2 = false := by
  by_cases ha : action = "refine"
  · by_cases hbad : cl = "" ∨ cl = cq ∨ cl ∈ hist
    · rw [ha, refineStage_stale reason cl cq hist hbad]
    · exact absurd (by rw [ha, refineStage_fresh reason cl cq hist hbad]) h
  · rw [refineStage_not_refine action reason cl cq hist ha]

/-! Lemmas about the whole evaluation node. -/

theorem validAction_evalOut (r : EvalRaw) (s : PipelineState) :
    ValidAction (evalStageOut r s).1 := by
  have h0 := validAction_validate r.action
  have h1 : ValidAction (evalStageAR r s).1 := by
    rcases hardGuardStop_action (validateAction r.action) (orElseStr r.reason "")
        (orElseStr r.suggested_query "") ((s.wikidata_hits.getD []).isEmpty)
        (s.iteration.getD 0) with h | h
    · rw [show evalStageAR r s =
        hardGuardStop (validateAction r.action) (orElseStr r.reason "")
          (orElseStr r.suggested_query "") ((s.wikidata_hits.getD []).isEmpty)
          (s.iteration.getD 0) from rfl, h]
      exact Or.inr (Or.inl rfl)
    · rw [show evalStageAR r s =
        hardGuardStop (validateAction r.action) (orElseStr r.reason "")
          (orElseStr r.suggested_query "") ((s.wikidata_hits.getD []).isEmpty)
          (s.iteration.getD 0) from rfl, h]
      exact h0
  have h2 : ValidAction (evalStageARS r s).1 := by
    rcases selectStage_action (evalStageAR r s).1 (evalStageAR r s).2 r.candidates with h | h
    · rw [show evalStageARS r s =
        selectStage (evalStageAR r s).1 (evalStageAR r s).2 r.candidates from rfl, h]
      exact Or.inr (Or.inl rfl)
    · rw [show evalStageARS r s =
        selectStage (evalStageAR r s).1 (evalStageAR r s).2 r.candidates from rfl, h]
      exact h1
  rcases refineStage_action (evalStageARS r s).1 (evalStageARS r s).2.1 (cleanedOf r)
      (orElseStr s.query "") (s.query_history.getD []) with h | h
  · rw [show evalStageOut r s =
      refineStage (evalStageARS r s).1 (evalStageARS r s).2.1 (cleanedOf r)
        (orElseStr s.query "") (s.query_history.getD []) from rfl, h]
    exact Or.inr (Or.inr rfl)
  · rw [show evalStageOut r s =
      refineStage (evalStageARS r s).1 (evalStageARS r s).2.1 (cleanedOf r)
        (orElseStr s.query "") (s.query_history.getD []) from rfl, h]
    exact h2

theorem evaluate_action_lower_refine (r : EvalRaw) (s : PipelineState)
    (h : pyLower (orElseStr (node_agent_evaluate r s).eval_action "stop") = "refine") :
    (node_agent_evaluate r s).eval_action = some "refine" := by
  rcases validAction_evalOut r s with h1 | h1 | h1 <;>
    rw [evaluate_action_eq, h1] at h ⊢ <;>
    exact absurd h (by decide)

theorem router_refine_inv (t : PipelineState) (h : router_after_eval t = "refine") :
    pyLower (orElseStr t.eval_action "stop") = "refine" ∧
      t.iteration.getD 0 < t.max_iterations.getD 3 := by
  by_cases hc : pyLower (orElseStr t.eval_action "stop") = "refine" ∧
      t.iteration.getD 0 < t.max_iterations.getD 3
  · exact hc
  · exfalso
    have : router_after_eval t = "done" := by simp [router_after_eval, hc]
    rw [this] at h
    exact absurd h (by decide)

theorem router_done_of_bound (t : PipelineState)
    (h : ¬ t.iteration.getD 0 < t.max_iterations.getD 3) :
    router_after_eval t = "done" := by
  have : ¬ (pyLower (orElseStr t.eval_action "stop") = "refine" ∧
      t.iteration.getD 0 < t.max_iterations.getD 3) := fun hc => h hc.2
  simp [router_after_eval, this]

theorem evaluate_increment (r : EvalRaw) (s : PipelineState)
    (h : (node_agent_evaluate r s).eval_action = some "refine") :
    (node_agent_evaluate r s).iteration = some (s.iteration.getD 0 + 1) := by
  have h1 : (evalStageOut r s).1 = "refine" := by
    have := (evaluate_action_eq r s).symm.trans h
    exact Option.some.inj this
  have h2 : (refineStage (evalStageARS r s).1 (evalStageARS r s).2.1 (cleanedOf r)
      (orElseStr s.query "") (s.query_history.getD [])).1 = "refine" := h1
  obtain ⟨heq, -, -, -⟩ := refineStage_refine _ _ _ _ _ h2
  have h3 : (evalStageOut r s).2.2.2 = true := by
    rw [show evalStageOut r s =
      refineStage (evalStageARS r s).1 (evalStageARS r s).2.1 (cleanedOf r)
        (orElseStr s.query "") (s.query_history.getD []) from rfl, heq]
  rw [evaluate_iteration_eq, h3]
  rfl

theorem evaluate_no_increment (r : EvalRaw) (s : PipelineState)
    (h : (node_agent_evaluate r s).eval_action ≠ some "refine") :
    (node_agent_evaluate r s).iteration = s.iteration := by
  have h1 : (evalStageOut r s).1 ≠ "refine" := by
    intro hc
    exact h (by rw [evaluate_action_eq, hc])
  have h2 : (refineStage (evalStageARS r s).1 (evalStageARS r s).2.1 (cleanedOf r)
      (orElseStr s.query "") (s.query_history.getD [])).1 ≠ "refine" := h1
  have h3 : (evalStageOut r s).2.2.2 = false := refineStage_no_increment _ _ _ _ _ h2
  rw [evaluate_iteration_eq, h3]
  rfl

theorem evaluate_iteration_char (r : EvalRaw) (s : PipelineState) :
    ((node_agent_evaluate r s).eval_action = some "refine" →
      (node_agent_evaluate r s).iteration = some (s.iteration.getD 0 + 1)) ∧
    ((node_agent_evaluate r s).eval_action ≠ some "refine" →
      (node_agent_evaluate r s).iteration = s.iteration) :=
  ⟨evaluate_increment r s, evaluate_no_increment r s⟩

theorem evaluate_refine_spec (r : EvalRaw) (s : PipelineState)
    (h : (node_agent_evaluate r s).eval_action = some "refine") :
    (node_agent_evaluate r s).eval_suggested_query = some (cleanedOf r) ∧
      cleanedOf r ≠ "" ∧ _normalize_query (cleanedOf r) 4 = cleanedOf r ∧
      cleanedOf r ∉ s.query_history.getD [] := by
  have h1 : (evalStageOut r s).1 = "refine" := by
    have := (evaluate_action_eq r s).symm.trans h
    exact Option.some.inj this
  have h2 : (refineStage (evalStageARS r s).1 (evalStageARS r s).2.1 (cleanedOf r)
      (orElseStr s.query "") (s.query_history.getD [])).1 = "refine" := h1
  obtain ⟨heq, hne, -, hnin⟩ := refineStage_refine _ _ _ _ _ h2
  refine ⟨?_, hne, ?_, hnin⟩
  · rw [evaluate_suggested_eq,
      show evalStageOut r s =
        refineStage (evalStageARS r s).1 (evalStageARS r s).2.1 (cleanedOf r)
          (orElseStr s.query "") (s.query_history.getD []) from rfl, heq]
  · unfold cleanedOf at hne ⊢
    by_cases hs : orElseStr r.suggested_query "" = ""
    · rw [if_pos hs] at hne
      exact absurd rfl hne
    · rw [if_neg hs]
      exact normalizeQuery_idem _ 4

/-! Lemmas about one pass of the loop and the bounded driver. -/

theorem loopBody_max (i : StepInputs) (s : PipelineState) :
    (loopBody i s).max_iterations = s.max_iterations := by
  unfold loopBody
  rw [evaluate_max, search_max, generate_max]

theorem loopBody_pre_iteration (i : StepInputs) (s : PipelineState) :
    (node_search_wikidata i.searchOutcome (node_generate_query i.llmContent s)).iteration =
      s.iteration := by
  rw [search_iteration, generate_iteration]

theorem loopBody_router_refine (i : StepInputs) (s : PipelineState)
    (h : router_after_eval (loopBody i s) = "refine") :
    (loopBody i s).iteration = some (s.iteration.getD 0 + 1) ∧
      (loopBody i s).iteration.getD 0 < (loopBody i s).max_iterations.getD 3 := by
  have hr := router_refine_inv _ h
  have hact : (loopBody i s).eval_action = some "refine" :=
    evaluate_action_lower_refine i.evalRaw
      (node_search_wikidata i.searchOutcome (node_generate_query i.llmContent s)) hr.1
  have hinc := evaluate_increment i.evalRaw
    (node_search_wikidata i.searchOutcome (node_generate_query i.llmContent s)) hact
  rw [loopBody_pre_iteration] at hinc
  exact ⟨hinc, hr.2⟩

theorem runLoop_succ (oracle : Nat → StepInputs) (k fuel : Nat) (s : PipelineState) :
    runLoop oracle k (fuel + 1) s =
      if router_after_eval (loopBody (oracle k) s) = "refine" then
        match runLoop oracle (k + 1) fuel (loopBody (oracle k) s) with
        | RunResult.finished t n => RunResult.finished t (n + 1)
        | RunResult.outOfFuel t => RunResult.outOfFuel t
      else RunResult.finished (node_agent_postprocess (loopBody (oracle k) s)) 0 := rfl

theorem runLoop_bound (oracle : Nat → StepInputs) :
    ∀ (f k : Nat) (s : PipelineState),
      s.max_iterations.getD 3 ≤ s.iteration.getD 0 + f →
      ∃ t n, runLoop oracle k (f + 1) s = RunResult.finished t n ∧
        n ≤ s.max_iterations.getD 3 - s.iteration.getD 0 := by
  intro f
  induction f with
  | zero =>
    intro k s hf
    by_cases hr : router_after_eval (loopBody (oracle k) s) = "refine"
    · exfalso
      obtain ⟨hit, hlt⟩ := loopBody_router_refine (oracle k) s hr
      rw [hit, loopBody_max] at hlt
      simp only [Option.getD_some] at hlt
      omega
    · refine ⟨node_agent_postprocess (loopBody (oracle k) s), 0, ?_, Nat.zero_le _⟩
      rw [runLoop_succ, if_neg hr]
  | succ f ih =>
    intro k s hf
    by_cases hr : router_after_eval (loopBody (oracle k) s) = "refine"
    · obtain ⟨hit, hlt⟩ := loopBody_router_refine (oracle k) s hr
      have hmax : (loopBody (oracle k) s).max_iterations = s.max_iterations :=
        loopBody_max (oracle k) s
      obtain ⟨t, n, hrun, hn⟩ := ih (k + 1) (loopBody (oracle k) s)
        (by rw [hit, hmax]; simp only [Option.getD_some]; omega)
      refine ⟨t, n + 1, ?_, ?_⟩
      · rw [runLoop_succ, if_pos hr, hrun]
      · rw [hit, hmax] at hn hlt
        simp only [Option.getD_some] at hn hlt
        omega
    · refine ⟨node_agent_postprocess (loopBody (oracle k) s), 0, ?_, Nat.zero_le _⟩
      rw [runLoop_succ, if_neg hr]

/-! Invariants along reachable states of the graph. -/

theorem reach_invariant {P : Phase × PipelineState → Prop}
    (hstep : ∀ a b, GraphStep a b → P a → P b) :
    ∀ {a b}, Reach a b → P a → P b := by
  intro a b h ha
  induction h with
  | refl => exact ha
  | tail _ h2 ih => exact hstep _ _ h2 ih

theorem iterInv_step (maxIter : Nat) :
    ∀ a b, GraphStep a b → iterInv maxIter a → iterInv maxIter b := by
  intro a b hstep hinv
  cases hstep with
  | generate raw s =>
    obtain ⟨hmax, hbound⟩ := hinv
    refine ⟨by rw [generate_max]; exact hmax, ?_⟩
    show (node_generate_query raw s).iteration.getD 0 + 1 ≤ maxIter
    rw [generate_iteration]
    exact hbound
  | search o s =>
    obtain ⟨hmax, hbound⟩ := hinv
    refine ⟨by rw [search_max]; exact hmax, ?_⟩
    show (node_search_wikidata o s).iteration.getD 0 + 1 ≤ maxIter
    rw [search_iteration]
    exact hbound
  | evalRefine r s h =>
    obtain ⟨hmax, _⟩ := hinv
    have hmax2 : (node_agent_evaluate r s).max_iterations = some maxIter := by
      rw [evaluate_max]
      exact hmax
    refine ⟨hmax2, ?_⟩
    show (node_agent_evaluate r s).iteration.getD 0 + 1 ≤ maxIter
    have hlt := (router_refine_inv _ h).2
    rw [hmax2] at hlt
    simp only [Option.getD_some] at hlt
    omega
  | evalDone r s h =>
    obtain ⟨hmax, hbound⟩ := hinv
    refine ⟨by rw [evaluate_max]; exact hmax, ?_⟩
    show (node_agent_evaluate r s).iteration.getD 0 ≤ maxIter
    have hin : s.iteration.getD 0 + 1 ≤ maxIter := hbound
    by_cases ha : (node_agent_evaluate r s).eval_action = some "refine"
    · rw [evaluate_increment r s ha]
      simp only [Option.getD_some]
      omega
    · rw [evaluate_no_increment r s ha]
      omega
  | post s =>
    obtain ⟨hmax, hbound⟩ := hinv
    refine ⟨by rw [postprocess_max]; exact hmax, ?_⟩
    show (node_agent_postprocess s).iteration.getD 0 ≤ maxIter
    rw [postprocess_iteration]
    exact hbound

theorem histInv_step : ∀ a b, GraphStep a b → histInv a → histInv b := by
  intro a b hstep hinv
  cases hstep with
  | generate raw s =>
    obtain ⟨hnd, hgen⟩ := hinv
    rcases hgen rfl with ⟨hsug, hemp⟩ | ⟨c, hc, hcne, hcnorm, hcnin⟩
    · refine ⟨?_, fun hph => by simp at hph⟩
      obtain ⟨q, -, hh, -⟩ := generate_appends raw s
      show ((node_generate_query raw s).query_history.getD []).Nodup
      rw [hh]
      simp only [Option.getD_some]
      rw [hemp]
      simp
    · refine ⟨?_, fun hph => by simp at hph⟩
      show ((node_generate_query raw s).query_history.getD []).Nodup
      rw [generate_adopts raw s c hc hcne]
      show (s.query_history.getD [] ++ [_normalize_query c 4]).Nodup
      rw [hcnorm]
      exact List.Nodup.append hnd (List.nodup_singleton _)
        (fun x hx hx2 => by
          rw [List.mem_singleton] at hx2
          rw [hx2] at hx
          exact hcnin hx)
  | search o s =>
    obtain ⟨hnd, -⟩ := hinv
    refine ⟨?_, fun hph => by simp at hph⟩
    show ((node_search_wikidata o s).query_history.getD []).Nodup
    rw [search_history]
    exact hnd
  | evalRefine r s h =>
    obtain ⟨hnd, -⟩ := hinv
    have hact : (node_agent_evaluate r s).eval_action = some "refine" :=
      evaluate_action_lower_refine r s (router_refine_inv _ h).1
    obtain ⟨hsug, hne, hnorm, hnin⟩ := evaluate_refine_spec r s hact
    refine ⟨?_, fun _ => Or.inr ⟨cleanedOf r, hsug, hne, hnorm, ?_⟩⟩
    · show ((node_agent_evaluate r s).query_history.getD []).Nodup
      rw [evaluate_history]
      exact hnd
    · show cleanedOf r ∉ (node_agent_evaluate r s).query_history.getD []
      rw [evaluate_history]
      exact hnin
  | evalDone r s h =>
    obtain ⟨hnd, -⟩ := hinv
    refine ⟨?_, fun hph => by simp at hph⟩
    show ((node_agent_evaluate r s).query_history.getD []).Nodup
    rw [evaluate_history]
    exact hnd
  | post s =>
    obtain ⟨hnd, -⟩ := hinv
    refine ⟨?_, fun hph => by simp at hph⟩
    show ((node_agent_postprocess s).query_history.getD []).Nodup
    rw [postprocess_history]
    exact hnd

theorem graphStep_history_extends :
    ∀ a b, GraphStep a b →
      ∃ t, (b.2).query_history.getD [] = (a.2).query_history.getD [] ++ t := by
  intro a b hstep
  cases hstep with
  | generate raw s =>
    obtain ⟨q, -, hh, -⟩ := generate_appends raw s
    exact ⟨[q], by show (node_generate_query raw s).query_history.getD [] = _; rw [hh]; simp⟩
  | search o s =>
    exact ⟨[], by show (node_search_wikidata o s).query_history.getD [] = _; rw [search_history]; simp⟩
  | evalRefine r s h =>
    exact ⟨[], by show (node_agent_evaluate r s).query_history.getD [] = _; rw [evaluate_history]; simp⟩
  | evalDone r s h =>
    exact ⟨[], by show (node_agent_evaluate r s).query_history.getD [] = _; rw [evaluate_history]; simp⟩
  | post s =>
    exact ⟨[], by show (node_agent_postprocess s).query_history.getD [] = _; rw [postprocess_history]; simp⟩

/-! Lemmas about candidate filtering. -/

theorem headMatch_map (f : Char → Char) (pat hay : List Char)
    (h : headMatch pat hay = true) : headMatch (pat.map f) (hay.map f) = true := by
  induction pat generalizing hay with
  | nil => rfl
  | cons p ps ih =>
    cases hay with
    | nil => exact absurd h (by simp [headMatch])
    | cons a as =>
      simp only [headMatch, Bool.and_eq_true, beq_iff_eq] at h
      simp only [List.map_cons, headMatch, Bool.and_eq_true, beq_iff_eq]
      exact ⟨by rw [h.1], ih as h.2⟩

theorem containsList_map (f : Char → Char) (pat hay : List Char)
    (h : containsList pat hay = true) : containsList (pat.map f) (hay.map f) = true := by
  induction hay with
  | nil =>
    simp only [containsList, List.isEmpty_iff] at h
    simp [h, containsList]
  | cons a as ih =>
    simp only [containsList, Bool.or_eq_true] at h
    rcases h with h | h
    · simp only [List.map_cons, containsList, Bool.or_eq_true]
      exact Or.inl (headMatch_map f pat (a :: as) h)
    · simp only [List.map_cons, containsList, Bool.or_eq_true]
      exact Or.inr (ih h)

theorem strContains_of_lower_free (desc term : String) (hterm : pyLower term = term)
    (h : strContains (pyLower desc) term = false) : strContains desc term = false := by
  by_contra hc
  have hc2 : strContains desc term = true := by
    cases hb : strContains desc term
    · exact absurd hb hc
    · rfl
  have hmap : containsList (term.toList.map Char.toLower) (desc.toList.map Char.toLower) = true :=
    containsList_map Char.toLower term.toList desc.toList hc2
  have hmap2 : containsList (pyLower term).toList (pyLower desc).toList = true := by
    simpa [pyLower, toList_mk] using hmap
  rw [hterm] at hmap2
  have : strContains (pyLower desc) term = true := hmap2
  rw [this] at h
  exact absurd h (by decide)

theorem cleanCandidate_props (c : RawCandidate) (e : SelectedEntity)
    (h : cleanCandidate c = some e) :
    (1 : Rat) / 2 ≤ e.score ∧
      ∀ term ∈ disallowedTerms, strContains (pyLower e.description) term = false := by
  unfold cleanCandidate at h
  by_cases h1 : orElseStr c.id "" = ""
  · rw [if_pos h1] at h
    cases h
  · rw [if_neg h1] at h
    by_cases h2 : disallowedTerms.any
        (fun term => strContains (pyLower (orElseStr c.description "")) term) = true
    · rw [if_pos h2] at h
      cases h
    · rw [if_neg h2] at h
      by_cases h3 : c.score.getD 0 < (1 : Rat) / 2
      · rw [if_pos h3] at h
        cases h
      · rw [if_neg h3] at h
        have he := Option.some.inj h
        have h2b : disallowedTerms.any
            (fun term => strContains (pyLower (orElseStr c.description "")) term) = false :=
          Bool.eq_false_iff.mpr h2
        constructor
        · rw [← he]
          exact not_lt.mp h3
        · intro term hterm
          rw [← he]
          exact Bool.eq_false_iff.mpr (List.any_eq_false.mp h2b term hterm)

theorem mem_filterCandidates (cs : List RawCandidate) (e : SelectedEntity)
    (h : e ∈ filterCandidates cs) :
    (1 : Rat) / 2 ≤ e.score ∧
      ∀ term ∈ disallowedTerms, strContains (pyLower e.description) term = false := by
  obtain ⟨c, -, hc⟩ := List.mem_filterMap.mp h
  exact cleanCandidate_props c e hc

theorem disallowed_lower_free (term : String) (h : term ∈ disallowedTerms) :
    pyLower term = term := by
  simp only [disallowedTerms, List.mem_cons, List.not_mem_nil, or_false] at h
  rcases h with rfl | rfl | rfl | rfl <;> decide

/-! Claim theorems. -/

/-- Claim C1: for every raw evaluator decision whose action is refine, the
cycle-prevention override of lines 300-312 downgrades the stored decision to
stop with the note appended and an empty suggested query exactly when the
normalized suggested query is empty, equal to the current query, or already in
the history; otherwise the refine decision is kept unchanged. -/
theorem claim_C1 (r : EvalRaw) (s : PipelineState)
    (h : pyLower (orElseStr r.action "stop") = "refine") : C1Prop r s := by
  have hv : validateAction r.action = "refine" := by
    simp [validateAction, h]
  have hAR : evalStageAR r s = ("refine", orElseStr r.reason "") := by
    show hardGuardStop (validateAction r.action) (orElseStr r.reason "")
        (orElseStr r.suggested_query "") ((s.wikidata_hits.getD []).isEmpty)
        (s.iteration.getD 0) = _
    rw [hv]
    exact hardGuardStop_not_stop _ _ _ _ _ (by decide)
  have hARS : evalStageARS r s = ("refine", orElseStr r.reason "", []) := by
    show selectStage (evalStageAR r s).1 (evalStageAR r s).2 r.candidates = _
    rw [hAR]
    show selectStage "refine" (orElseStr r.reason "") r.candidates = _
    exact selectStage_not_select _ _ _ (by decide)
  constructor
  · intro hstale
    have hout : evalStageOut r s =
        ("stop", orElseStr r.reason "" ++ " | stopping: no new query to try.", "", false) := by
      show refineStage (evalStageARS r s).1 (evalStageARS r s).2.1 (cleanedOf r)
          (orElseStr s.query "") (s.query_history.getD []) = _
      rw [hARS]
      show refineStage "refine" (orElseStr r.reason "") (cleanedOf r)
          (orElseStr s.query "") (s.query_history.getD []) = _
      exact refineStage_stale _ _ _ _ hstale
    exact ⟨by rw [evaluate_action_eq, hout], by rw [evaluate_reason_eq, hout],
      by rw [evaluate_suggested_eq, hout]⟩
  · intro hfresh
    have hout : evalStageOut r s = ("refine", orElseStr r.reason "", cleanedOf r, true) := by
      show refineStage (evalStageARS r s).1 (evalStageARS r s).2.1 (cleanedOf r)
          (orElseStr s.query "") (s.query_history.getD []) = _
      rw [hARS]
      show refineStage "refine" (orElseStr r.reason "") (cleanedOf r)
          (orElseStr s.query "") (s.query_history.getD []) = _
      exact refineStage_fresh _ _ _ _ hfresh
    exact ⟨by rw [evaluate_action_eq, hout], by rw [evaluate_reason_eq, hout],
      by rw [evaluate_suggested_eq, hout]⟩

/-- Witness for claim C1 at a concrete refine decision and state. -/
theorem claim_C1_witness :
    pyLower (orElseStr wC1_r.action "stop") = "refine" ∧ C1Prop wC1_r cexC5_s :=
  ⟨by decide, claim_C1 wC1_r cexC5_s (by decide)⟩

/-- Claim C2: every run started at iteration 0 finishes within fuel
max_iterations + 1, taking at most max_iterations refine loop-backs, and in
the always-refine fresh-query scenario with bound 3 the run ends at
iteration 3 with a query history of length 3. -/
theorem claim_C2 (oracle : Nat → StepInputs) (s : PipelineState)
    (h : s.iteration.getD 0 = 0) : C2Prop oracle s := by
  refine ⟨?_, by decide, by decide, by decide, by decide⟩
  obtain ⟨t, n, hrun, hn⟩ := runLoop_bound oracle (s.max_iterations.getD 3) 0 s (by omega)
  exact ⟨t, n, hrun, by omega⟩

/-- Witness for claim C2: the always-refine scenario oracle started from the
initial state of the program. -/
theorem claim_C2_witness :
    (initial_state none 3).iteration.getD 0 = 0 ∧ C2Prop oracleB (initial_state none 3) :=
  ⟨by decide, claim_C2 oracleB (initial_state none 3) (by decide)⟩

/-- Claim C3 (amended): provided max_iterations is at least 1, every state
reachable from the initial state satisfies iteration at most max_iterations
(iteration is a natural number, so 0 is a lower bound by construction), and
the counter is changed only by an evaluation whose effective action is refine,
which increments it by exactly 1. -/
theorem claim_C3_amended (ctx : Option String) (maxIter : Nat) (h : 1 ≤ maxIter) :
    C3InvProp ctx maxIter := by
  refine ⟨?_, generate_iteration, search_iteration, postprocess_iteration,
    evaluate_iteration_char⟩
  intro p s hreach
  have hbase : iterInv maxIter (Phase.atGenerate, initial_state ctx maxIter) := by
    refine ⟨rfl, ?_⟩
    show (initial_state ctx maxIter).iteration.getD 0 + 1 ≤ maxIter
    simp only [initial_state, Option.getD_some]
    omega
  obtain ⟨-, hbound⟩ := reach_invariant (iterInv_step maxIter) hreach hbase
  cases p with
  | atGenerate => exact Nat.le_of_succ_le hbound
  | atSearch => exact Nat.le_of_succ_le hbound
  | atEvaluate => exact Nat.le_of_succ_le hbound
  | atPost => exact hbound
  | terminated => exact hbound

/-- Counterexample for claim C3 as stated: with max_iterations = 0 a refine
decision still increments the counter past the bound, so iteration = 1 is
reachable while max_iterations = 0. -/
theorem claim_C3_counterexample :
    Reach (Phase.atGenerate, initial_state none 0) (Phase.atPost, cexC3_state) ∧
      (initial_state none 0).iteration = some 0 ∧
      cexC3_state.max_iterations = some 0 ∧ cexC3_state.iteration = some 1 := by
  refine ⟨?_, rfl, by decide, by decide⟩
  have h1 : GraphStep (Phase.atGenerate, initial_state none 0)
      (Phase.atSearch, node_generate_query (some "alpha") (initial_state none 0)) :=
    GraphStep.generate (some "alpha") _
  have h2 : GraphStep (Phase.atSearch, node_generate_query (some "alpha") (initial_state none 0))
      (Phase.atEvaluate, node_search_wikidata (SearchOutcome.success [])
        (node_generate_query (some "alpha") (initial_state none 0))) :=
    GraphStep.search _ _
  have h3 : GraphStep (Phase.atEvaluate, node_search_wikidata (SearchOutcome.success [])
        (node_generate_query (some "alpha") (initial_state none 0)))
      (Phase.atPost, cexC3_state) :=
    GraphStep.evalDone cexC3_r _ (by decide)
  exact Relation.ReflTransGen.head h1
    (Relation.ReflTransGen.head h2 (Relation.ReflTransGen.single h3))

/-- Witness for the amended claim C3 at the iteration bound used by the
program. -/
theorem claim_C3_witness : 1 ≤ 3 ∧ C3InvProp none 3 :=
  ⟨by decide, claim_C3_amended none 3 (by decide)⟩

/-- Claim C4: whenever the stored decision after evaluation is select, the
selected-entities list is non-empty and every entry has score at least 0.5 and
a description free of the disallowed-category terms (checked case-insensitively
by the code, hence also literally); and when filtering leaves no candidate the
select stage downgrades the action to refine with the diagnostic note. -/
theorem claim_C4 :
    (∀ (r : EvalRaw) (s : PipelineState) (es : List SelectedEntity),
      (node_agent_evaluate r s).eval_action = some "select" →
      (node_agent_evaluate r s).selected_entities = some es →
      es ≠ [] ∧ ∀ e ∈ es, (1 : Rat) / 2 ≤ e.score ∧
        ∀ term ∈ disallowedTerms, strContains (pyLower e.description) term = false ∧
          strContains e.description term = false) ∧
    (∀ (reason : String) (cands : List RawCandidate), filterCandidates cands = [] →
      selectStage "select" reason cands =
        ("refine",
          reason ++ " | no non-article candidates above score threshold; refine query.",
          [])) := by
  constructor
  · intro r s es hact hsel
    have h1 : (evalStageOut r s).1 = "select" :=
      Option.some.inj ((evaluate_action_eq r s).symm.trans hact)
    have h1b : (refineStage (evalStageARS r s).1 (evalStageARS r s).2.1 (cleanedOf r)
        (orElseStr s.query "") (s.query_history.getD [])).1 = "select" := h1
    have h2 : (evalStageARS r s).1 = "select" := by
      rcases refineStage_action (evalStageARS r s).1 (evalStageARS r s).2.1 (cleanedOf r)
          (orElseStr s.query "") (s.query_history.getD []) with hx | hx
      · rw [hx] at h1b
        exact absurd h1b (by decide)
      · rw [hx] at h1b
        exact h1b
    obtain ⟨-, hne, heq⟩ := selectStage_select _ _ _ h2
    have h4 : evalStageARS r s =
        ("select", (evalStageAR r s).2, filterCandidates r.candidates) := heq
    have hes : es = filterCandidates r.candidates := by
      have h5 := Option.some.inj ((evaluate_selected_eq r s).symm.trans hsel)
      rw [← h5, h4]
    constructor
    · rw [hes]
      exact hne
    · intro e he
      rw [hes] at he
      obtain ⟨hscore, hterms⟩ := mem_filterCandidates r.candidates e he
      exact ⟨hscore, fun term hterm =>
        ⟨hterms term hterm,
          strContains_of_lower_free _ _ (disallowed_lower_free term hterm)
            (hterms term hterm)⟩⟩
  · intro reason cands h
    exact selectStage_downgrade reason cands h

/-- Claim C5 (amended): with empty hits at iteration 0 the hard guard always
converts a raw stop into refine, and the effective decision is not stop
provided the suggested query is fresh (non-empty, different from the current
query and not in the history); without a fresh suggestion the cycle
prevention re-downgrades the forced refine back to stop, see the
counterexample. -/
theorem claim_C5_amended (r : EvalRaw) (s : PipelineState)
    (h1 : (s.wikidata_hits.getD []).isEmpty = true) (h2 : s.iteration.getD 0 = 0)
    (h3 : ¬ staleSuggestion r s) : C5AmendedProp r s := by
  refine ⟨?_, fun re sug => hardGuardStop_fires re sug⟩
  have hARform : evalStageAR r s = hardGuardStop (validateAction r.action)
      (orElseStr r.reason "") (orElseStr r.suggested_query "")
      ((s.wikidata_hits.getD []).isEmpty) (s.iteration.getD 0) := rfl
  have hAR : (evalStageAR r s).1 = "select" ∨ (evalStageAR r s).1 = "refine" := by
    rcases validAction_validate r.action with hv | hv | hv
    · rw [hARform, hv, hardGuardStop_not_stop _ _ _ _ _ (by decide)]
      exact Or.inl rfl
    · rw [hARform, hv, hardGuardStop_not_stop _ _ _ _ _ (by decide)]
      exact Or.inr rfl
    · rw [hARform, hv, h1, h2, hardGuardStop_fires]
      exact Or.inr rfl
  have hARSform : evalStageARS r s =
      selectStage (evalStageAR r s).1 (evalStageAR r s).2 r.candidates := rfl
  have hARS : (evalStageARS r s).1 = "select" ∨ (evalStageARS r s).1 = "refine" := by
    rcases hAR with hx | hx
    · rcases selectStage_action (evalStageAR r s).1 (evalStageAR r s).2 r.candidates with hy | hy
      · rw [hARSform, hy]
        exact Or.inr rfl
      · rw [hARSform, hy]
        exact Or.inl hx
    · rw [hARSform, hx, selectStage_not_select _ _ _ (by decide)]
      exact Or.inr rfl
  have hOutform : evalStageOut r s = refineStage (evalStageARS r s).1
      (evalStageARS r s).2.1 (cleanedOf r) (orElseStr s.query "")
      (s.query_history.getD []) := rfl
  rcases hARS with hx | hx
  · have hout : (evalStageOut r s).1 = "select" := by
      rw [hOutform, hx, refineStage_not_refine _ _ _ _ _ (by decide)]
    rw [evaluate_action_eq, hout]
    decide
  · have hout : (evalStageOut r s).1 = "refine" := by
      rw [hOutform, hx, refineStage_fresh _ _ _ _ h3]
    rw [evaluate_action_eq, hout]
    decide

/-- Counterexample for claim C5 as stated: a raw stop decision with empty
hits at iteration 0 but no usable suggested query is first forced to refine
and then downgraded back to stop by cycle prevention, so the effective
decision is stop. -/
theorem claim_C5_counterexample :
    (cexC5_s.wikidata_hits.getD []).isEmpty = true ∧ cexC5_s.iteration.getD 0 = 0 ∧
      pyLower (orElseStr cexC5_r.action "stop") = "stop" ∧
      (node_agent_evaluate cexC5_r cexC5_s).eval_action = some "stop" := by decide

/-- Witness for the amended claim C5 at a raw stop decision carrying a fresh
suggested query. -/
theorem claim_C5_witness :
    (cexC5_s.wikidata_hits.getD []).isEmpty = true ∧ cexC5_s.iteration.getD 0 = 0 ∧
      ¬ staleSuggestion wC5_r cexC5_s ∧ C5AmendedProp wC5_r cexC5_s :=
  ⟨by decide, by decide, by unfold staleSuggestion; decide,
    claim_C5_amended wC5_r cexC5_s (by decide) (by decide)
      (by unfold staleSuggestion; decide)⟩

/-- Claim C6 (amended): when the external search call fails on a non-empty
query, the node returns normally (it is a total function: the except branch
swallows the exception) and stores a one-element list holding the error
record, not the empty list claimed by the specification. -/
theorem claim_C6_amended (e : String) (s : PipelineState)
    (h : pyStrip (orElseStr s.query "") ≠ "") :
    node_search_wikidata (SearchOutcome.failure e) s =
      { s with wikidata_hits := some [WikidataHit.errorRecord e] } :=
  search_failure_stores_error e s h

/-- Counterexample for claim C6 as stated: after a failed call the stored hit
list is the singleton error record, not the empty list. -/
theorem claim_C6_counterexample :
    (node_search_wikidata (SearchOutcome.failure "timeout") cexC6_s).wikidata_hits =
        some [WikidataHit.errorRecord "timeout"] ∧
      ¬ (node_search_wikidata (SearchOutcome.failure "timeout") cexC6_s).wikidata_hits =
        some [] := by decide

/-- Witness for the amended claim C6. -/
theorem claim_C6_witness :
    pyStrip (orElseStr cexC6_s.query "") ≠ "" ∧
      node_search_wikidata (SearchOutcome.failure "timeout") cexC6_s =
        { cexC6_s with wikidata_hits := some [WikidataHit.errorRecord "timeout"] } :=
  ⟨by decide, claim_C6_amended "timeout" cexC6_s (by decide)⟩

/-- Claim C7: when the stripped current query is empty the search node skips
the provider entirely and returns the whole state unchanged, hits included. -/
theorem claim_C7 (o : SearchOutcome) (s : PipelineState)
    (h : pyStrip (orElseStr s.query "") = "") : node_search_wikidata o s = s :=
  search_skip o s h

/-- Witness for claim C7 at a whitespace-only query and a successful outcome
that would have replaced the retained hits. -/
theorem claim_C7_witness :
    pyStrip (orElseStr wC7_s.query "") = "" ∧
      node_search_wikidata (SearchOutcome.success [WikidataHit.entity "Q2" "new" "dropped"])
        wC7_s = wC7_s :=
  ⟨by decide, claim_C7 (SearchOutcome.success [WikidataHit.entity "Q2" "new" "dropped"])
    wC7_s (by decide)⟩

/-- Counterexample for claim C8 as stated: the normalizer does not lowercase
its input and leaves punctuation other than pipe and comma untouched. -/
theorem claim_C8_counterexample :
    _normalize_query "A;B" 4 = "A;B" ∧ pyLower "A;B" ≠ "A;B" ∧
      strContains "A;B" ";" = true := by decide

/-- Claim C8 (amended): the normalizer output has at most 4 whitespace
tokens, normalization is idempotent, the output contains no pipe or comma,
and every query the proposer stores is a normalization image. -/
theorem claim_C8_amended : C8AmendedProp := by
  refine ⟨fun q => normalize_token_bound q 4, fun q => normalizeQuery_idem q 4,
    fun q c hc => normalize_no_pipe_comma q 4 c hc, ?_⟩
  intro raw s
  obtain ⟨q, hq, -, src, hsrc⟩ := generate_appends raw s
  exact ⟨src, by rw [hq, hsrc]⟩

/-- Claim C9: in every state reachable from an initial state the query
history has no duplicate entries, and every single graph step only ever
extends the history by appending. -/
theorem claim_C9 (ctx : Option String) (maxIter : Nat) (p : Phase) (s : PipelineState)
    (h : Reach (Phase.atGenerate, initial_state ctx maxIter) (p, s)) :
    (s.query_history.getD []).Nodup ∧
      (∀ a b, GraphStep a b →
        ∃ t, (b.2).query_history.getD [] = (a.2).query_history.getD [] ++ t) := by
  have hbase : histInv (Phase.atGenerate, initial_state ctx maxIter) := by
    refine ⟨?_, fun _ => Or.inl ⟨rfl, ?_⟩⟩
    · show ((initial_state ctx maxIter).query_history.getD []).Nodup
      simp [initial_state]
    · show (initial_state ctx maxIter).query_history.getD [] = []
      simp [initial_state]
  exact ⟨(reach_invariant histInv_step h hbase).1, graphStep_history_extends⟩

/-- Witness for claim C9 at the initial state itself. -/
theorem claim_C9_witness :
    Reach (Phase.atGenerate, initial_state none 3) (Phase.atGenerate, initial_state none 3) ∧
      (((initial_state none 3).query_history.getD []).Nodup ∧
        (∀ a b, GraphStep a b →
          ∃ t, (b.2).query_history.getD [] = (a.2).query_history.getD [] ++ t)) :=
  ⟨Relation.ReflTransGen.refl,
    claim_C9 none 3 Phase.atGenerate (initial_state none 3) Relation.ReflTransGen.refl⟩

/-- Claim C10: every invocation of the proposer appends exactly one entry to
the query history, including when the proposal normalizes to the empty
string, and the stored current query equals that last entry. -/
theorem claim_C10 :
    ∀ (raw : Option String) (s : PipelineState), ∃ q,
      (node_generate_query raw s).query = some q ∧
      (node_generate_query raw s).query_history =
        some (s.query_history.getD [] ++ [q]) ∧
      ((node_generate_query raw s).query_history.getD []).length =
        (s.query_history.getD []).length + 1 ∧
      ((node_generate_query raw s).query_history.getD []).getLast? = some q := by
  intro raw s
  obtain ⟨q, hq, hh, -⟩ := generate_appends raw s
  refine ⟨q, hq, hh, ?_, ?_⟩
  · rw [hh]
    simp
  · rw [hh]
    simp
